import Mathlib

/-!
Verification development for the coin-ledger and lottery-settlement core of the
`2020-product-analytics-group-project-impulses` repository.

The repository source (`src/app/classes.py`) contains only the SQLAlchemy schema
(tables `user`, `coin`, `lottery`, `user_lottery_log`, ...); the business logic
of the ledger+lottery core (balanceOf, debitIfAfforded, purchaseEntries,
entriesFor, settle, draw engine) is absent from the source and is therefore
modelled here from the specification, faithfully to its words.  The schema
defaults of `UserLotteryLog.entries` and `User.signup_date` are embedded
directly from the source.
-/

namespace Impulses

/-- Modelled from the spec: the `reason` enum of a LedgerEntry
(`login`, `saving`, `lottery_entry`, `lottery_payout`, `adjustment`). -/
inductive Reason where
  | login
  | saving
  | lottery_entry
  | lottery_payout
  | adjustment
deriving DecidableEq, Repr

/-- Modelled from the spec: a LedgerEntry — immutable record with a signed
`amount` (positive = credit, negative = debit), a `reason`, and an optional
`relatedRoundId` for lottery-related entries. -/
structure LedgerEntry where
  userId : Nat
  amount : Int
  reason : Reason
  relatedRoundId : Option Nat
deriving DecidableEq, Repr

/-- Modelled from the spec: the LotteryRound status enum
(`open`, `closed_pending_draw`, `settled`). -/
inductive RoundStatus where
  | opened
  | closedPendingDraw
  | settled
deriving DecidableEq, Repr

/-- Modelled from the spec: a LotteryRound with `costPerEntry`, open/close
times, a `status`, and a nullable `winnerUserId` set only on settlement.
Rounds are keyed by their position in the catalog list (auto-increment id). -/
structure Round where
  costPerEntry : Nat
  opensAt : Nat
  closesAt : Nat
  status : RoundStatus
  winnerUserId : Option Nat
deriving DecidableEq, Repr

/-- Modelled from the spec: the persistent state of the core — the Ledger
Store's append-only log and the Lottery Catalog's round table. -/
structure LotteryState where
  ledger : List LedgerEntry
  rounds : List Round
deriving DecidableEq, Repr

/-- Primary-key lookup of a round in the catalog. -/
def getRound (st : LotteryState) (rid : Nat) : Option Round :=
  st.rounds[rid]?

/-- Update of the round with key `rid` in the catalog. -/
def setRound (st : LotteryState) (rid : Nat) (r : Round) : LotteryState :=
  { st with rounds := st.rounds.set rid r }

/-- Modelled from the spec: `balanceOf(userId)` — the sum of all ledger
entries' amounts for the user; a user with no entries has balance 0. -/
def balanceOf : List LedgerEntry → Nat → Int
  | [], _ => 0
  | e :: rest, u => (if e.userId = u then e.amount else 0) + balanceOf rest u

/-- Append a single entry to the ledger (the store-assigned id is the
position in the log). -/
def appendEntry (st : LotteryState) (e : LedgerEntry) : LotteryState × Nat :=
  ({ st with ledger := st.ledger ++ [e] }, st.ledger.length)

/-- Result type of `debitIfAfforded`. -/
inductive DebitResult where
  | Ok (entryId : Nat)
  | InsufficientBalance
deriving DecidableEq, Repr

/-- Modelled from the spec: `debitIfAfforded(userId, amount, reason, roundId)`
— the atomic primitive that reads the balance, verifies `amount ≤ balance`,
and appends the negative entry as one indivisible unit; on insufficient
balance nothing is appended. -/
def debitIfAfforded (st : LotteryState) (u : Nat) (amount : Nat)
    (reason : Reason) (rid : Option Nat) : LotteryState × DebitResult :=
  if (amount : Int) ≤ balanceOf st.ledger u then
    let p := appendEntry st { userId := u, amount := -(amount : Int),
                              reason := reason, relatedRoundId := rid }
    (p.1, DebitResult.Ok p.2)
  else
    (st, DebitResult.InsufficientBalance)

/-- Modelled from the spec: the entry-units one ledger entry contributes to
user `u`'s entry count in round `rid` (debited amount divided by the round's
`costPerEntry`; zero for entries of other users, reasons or rounds). -/
def entryUnits (cost : Nat) (rid : Nat) (u : Nat) (e : LedgerEntry) : Nat :=
  if e.userId = u ∧ e.reason = Reason.lottery_entry ∧
      e.relatedRoundId = some rid then
    (-e.amount).toNat / cost
  else 0

/-- Modelled from the spec: `entriesFor(roundId)` at one user — aggregated
from the Ledger Store's authoritative log, not from a separate counter. -/
def entriesForUser (st : LotteryState) (rid : Nat) (u : Nat) : Nat :=
  match getRound st rid with
  | none => 0
  | some r => (st.ledger.map (entryUnits r.costPerEntry rid u)).sum

/-- The entry-units one ledger entry contributes to round `rid`, over all
users (debited amount divided by the round's `costPerEntry`). -/
def roundWeight (cost rid : Nat) (e : LedgerEntry) : Nat :=
  if e.reason = Reason.lottery_entry ∧ e.relatedRoundId = some rid then
    (-e.amount).toNat / cost
  else 0

/-- The users holding at least one ledger entry tagged with round `rid`. -/
def roundUsers (st : LotteryState) (rid : Nat) : List Nat :=
  ((st.ledger.filter (fun e => e.reason = Reason.lottery_entry ∧
      e.relatedRoundId = some rid)).map (fun e => e.userId)).dedup

/-- Modelled from the spec: the entry snapshot of a round — the mapping
userId → entryCount, aggregated from the ledger. -/
def snapshotFor (st : LotteryState) (rid : Nat) : List (Nat × Nat) :=
  (roundUsers st rid).map (fun u => (u, entriesForUser st rid u))

/-- Modelled from the spec: the total entry count `T` of a round — the sum of
all users' entry counts in the round's snapshot. -/
def totalEntries (st : LotteryState) (rid : Nat) : Nat :=
  ((snapshotFor st rid).map (fun p => p.2)).sum

/-- The total coin amount debited from the ledger for round `rid` with reason
`lottery_entry` (sum of the negated amounts of those debit entries). -/
def debitedFor (st : LotteryState) (rid : Nat) : Nat :=
  (st.ledger.map (fun e =>
    if e.reason = Reason.lottery_entry ∧ e.relatedRoundId = some rid then
      (-e.amount).toNat
    else 0)).sum

/-- Result type of `purchaseEntries`. -/
inductive PurchaseResult where
  | Ok (entryId : Nat)
  | InsufficientBalance
  | RoundNotOpen
  | InvalidCount
deriving DecidableEq, Repr

/-- Modelled from the spec: `purchaseEntries(userId, roundId, count)` —
requires `count ≥ 1`, round status `open` and `now < closesAt`, then debits
`cost = count * costPerEntry` through `debitIfAfforded`; every failure leaves
the state unchanged (no partial effect). -/
def purchaseEntries (st : LotteryState) (u : Nat) (rid : Nat) (count : Nat)
    (now : Nat) : LotteryState × PurchaseResult :=
  if count < 1 then (st, PurchaseResult.InvalidCount)
  else
    match getRound st rid with
    | none => (st, PurchaseResult.RoundNotOpen)
    | some r =>
      if r.status = RoundStatus.opened ∧ now < r.closesAt then
        match debitIfAfforded st u (count * r.costPerEntry)
            Reason.lottery_entry (some rid) with
        | (st2, DebitResult.Ok eid) => (st2, PurchaseResult.Ok eid)
        | (_, DebitResult.InsufficientBalance) =>
          (st, PurchaseResult.InsufficientBalance)
      else (st, PurchaseResult.RoundNotOpen)

/-- Result type of `settle`. -/
inductive SettleResult where
  | Ok
  | NotFound
  | InvalidTransition
  | NoEntries
  | InvalidWinner
deriving DecidableEq, Repr

/-- Modelled from the spec: `settle(roundId, winnerUserId)` — fails with
`InvalidTransition` if status is not `closed_pending_draw`, with `NoEntries`
if the round has zero total entries, with `InvalidWinner` if the chosen user
has zero entries in the round; otherwise records the winner and transitions
the round to `settled`. -/
def settle (st : LotteryState) (rid : Nat) (w : Nat) :
    LotteryState × SettleResult :=
  match getRound st rid with
  | none => (st, SettleResult.NotFound)
  | some r =>
    if r.status = RoundStatus.closedPendingDraw then
      if totalEntries st rid = 0 then (st, SettleResult.NoEntries)
      else if entriesForUser st rid w = 0 then (st, SettleResult.InvalidWinner)
      else
        (setRound st rid { r with status := RoundStatus.settled,
                                  winnerUserId := some w },
         SettleResult.Ok)
    else (st, SettleResult.InvalidTransition)

/-- Modelled from the spec: weighted selection — walk the snapshot and return
the user owning the `k`-th entry-unit. -/
def selectByIndex : List (Nat × Nat) → Nat → Option Nat
  | [], _ => none
  | (u, c) :: rest, k => if k < c then some u else selectByIndex rest (k - c)

/-- Modelled from the spec: the seeded weighted draw over an entry snapshot —
deterministic given the seed, selecting user `u_i` with weight `c_i / T`. -/
def pickWinner (snapshot : List (Nat × Nat)) (seed : Nat) : Option Nat :=
  let T := (snapshot.map (fun p => p.2)).sum
  if T = 0 then none
  else selectByIndex snapshot (seed % T)

/-- Result type of the Draw Engine. -/
inductive DrawResult where
  | winner (u : Nat)
  | noEntries
  | notReady
deriving DecidableEq, Repr

/-- Modelled from the spec: the Draw Engine — on a `closed_pending_draw`
round it draws a winner from the entry snapshot with the given seed and
settles the round; a round with zero entries settles with no winner
(`NoEntries`, not fatal); re-invoking on an already-`settled` round returns
the recorded winner without re-drawing and without touching the ledger. -/
def drawEngine (st : LotteryState) (rid : Nat) (seed : Nat) :
    LotteryState × DrawResult :=
  match getRound st rid with
  | none => (st, DrawResult.notReady)
  | some r =>
    match r.status with
    | RoundStatus.settled =>
      match r.winnerUserId with
      | some w => (st, DrawResult.winner w)
      | none => (st, DrawResult.noEntries)
    | RoundStatus.closedPendingDraw =>
      if totalEntries st rid = 0 then
        (setRound st rid { r with status := RoundStatus.settled,
                                  winnerUserId := none },
         DrawResult.noEntries)
      else
        match pickWinner (snapshotFor st rid) seed with
        | some w =>
          (setRound st rid { r with status := RoundStatus.settled,
                                    winnerUserId := some w },
           DrawResult.winner w)
        | none => (st, DrawResult.notReady)
    | RoundStatus.opened => (st, DrawResult.notReady)

/-- The transition applied to each round by `closeExpiredRounds`. -/
def closeUpd (now : Nat) (r : Round) : Round :=
  if r.status = RoundStatus.opened ∧ r.closesAt ≤ now then
    { r with status := RoundStatus.closedPendingDraw }
  else r

/-- Modelled from the spec: `closeExpiredRounds(now)` — transitions every
`open` round whose `closesAt ≤ now` to `closed_pending_draw`; idempotent. -/
def closeExpiredRounds (st : LotteryState) (now : Nat) : LotteryState :=
  { st with rounds := st.rounds.map (closeUpd now) }

/-- Modelled from the spec: `openRound(spec)` — creates a round in `open`
status; rejected (`InvalidSpec`, state unchanged) if `costPerEntry ≤ 0` or
`closesAt ≤ opensAt`. -/
def openRound (st : LotteryState) (cost opensAt closesAt : Nat) :
    LotteryState :=
  if cost = 0 ∨ closesAt ≤ opensAt then st
  else
    { st with rounds := st.rounds ++
        [{ costPerEntry := cost, opensAt := opensAt, closesAt := closesAt,
           status := RoundStatus.opened, winnerUserId := none }] }

/-- Modelled from the spec: the operations callers may invoke on the core.
Credits come from the Earning Rules or the payout path, so they never carry
the `lottery_entry` reason; direct debits go through `debitIfAfforded` and
likewise never carry `lottery_entry` (only `purchaseEntries` produces those,
via the Entry Service). -/
inductive Op where
  | credit (u : Nat) (amount : Nat) (reason : Reason) (rid : Option Nat)
  | debit (u : Nat) (amount : Nat) (reason : Reason) (rid : Option Nat)
  | purchase (u : Nat) (rid : Nat) (count : Nat) (now : Nat)
  | openR (cost opensAt closesAt : Nat)
  | closeExpired (now : Nat)
  | settleOp (rid : Nat) (w : Nat)
  | draw (rid : Nat) (seed : Nat)
deriving DecidableEq, Repr

/-- Modelled from the spec: one atomic step of the system.  Credits and
direct debits with the reserved `lottery_entry` reason are rejected (no-op),
matching the ownership rule that only the Entry Service records entry
purchases. -/
def step (st : LotteryState) : Op → LotteryState
  | Op.credit u amount reason rid =>
    if reason = Reason.lottery_entry then st
    else (appendEntry st { userId := u, amount := (amount : Int),
                           reason := reason, relatedRoundId := rid }).1
  | Op.debit u amount reason rid =>
    if reason = Reason.lottery_entry then st
    else (debitIfAfforded st u amount reason rid).1
  | Op.purchase u rid count now => (purchaseEntries st u rid count now).1
  | Op.openR cost opensAt closesAt => openRound st cost opensAt closesAt
  | Op.closeExpired now => closeExpiredRounds st now
  | Op.settleOp rid w => (settle st rid w).1
  | Op.draw rid seed => (drawEngine st rid seed).1

/-- The initial state: empty ledger, empty catalog. -/
def initState : LotteryState := { ledger := [], rounds := [] }

/-- Running a sequence of operations from the initial state. -/
def runOps (ops : List Op) : LotteryState := ops.foldl step initState

/-- A concrete scenario: a round with cost-per-entry 3 opens, user 1 is
credited 10 coins for a login, buys 2 entries for 6 coins, the round closes
at its close time and is drawn with seed 42 (user 1 wins). -/
def demoOps : List Op :=
  [Op.openR 3 0 10, Op.credit 1 10 Reason.login none,
   Op.purchase 1 0 2 5, Op.closeExpired 10, Op.draw 0 42]

/-- The system invariant, preserved by every operation:
every user balance is nonnegative; every `lottery_entry` ledger entry is a
debit of a whole number (≥ 1) of entry-units priced at its round's
`costPerEntry`; every catalogued round has a positive `costPerEntry`; and a
round's winner, once recorded, implies the round is `settled` and the winner
holds at least one entry in it. -/
structure Inv (st : LotteryState) : Prop where
  nonneg : ∀ u, 0 ≤ balanceOf st.ledger u
  entryShape : ∀ e ∈ st.ledger, e.reason = Reason.lottery_entry →
    ∃ rid r k, e.relatedRoundId = some rid ∧ getRound st rid = some r ∧
      1 ≤ k ∧ e.amount = -((k * r.costPerEntry : Nat) : Int)
  costPos : ∀ rid r, getRound st rid = some r → 0 < r.costPerEntry
  winnerOk : ∀ rid r w, getRound st rid = some r → r.winnerUserId = some w →
    r.status = RoundStatus.settled ∧ 1 ≤ entriesForUser st rid w

/-! ### Schema embeddings taken directly from src/app/classes.py -/

/-- Data model for the `user_lottery_log` table (src/app/classes.py lines
265-278): `lottery_log_id` primary key, `user_id`, `lottery_id`, and
`entries` declared `nullable=False, default=1`; the stored value is a plain
integer, never null. -/
structure UserLotteryLog where
  lottery_log_id : Nat
  user_id : Nat
  lottery_id : Nat
  entries : Nat
deriving DecidableEq, Repr

/-- Row construction for `user_lottery_log`: a column with a default stores
the supplied value when one is given and the column default `1` otherwise
(`entries` is `nullable=False`, so the stored field is `Nat`, not
`Option Nat`). -/
def mkUserLotteryLog (lottery_log_id user_id lottery_id : Nat)
    (entries : Option Nat) : UserLotteryLog :=
  { lottery_log_id := lottery_log_id, user_id := user_id,
    lottery_id := lottery_id, entries := entries.getD 1 }

/-- Data model for the defaulted columns of the `user` table
(src/app/classes.py lines 52-57): `signup_date` has
`default=datetime.now().astimezone(TZ)`, `status` defaults to
`"unverified"`, `coins` defaults to `0`. -/
structure UserRow where
  signup_date : Nat
  status : String
  coins : Nat
deriving DecidableEq, Repr

/-- The `signup_date` column default.  In the source the default expression
`datetime.now().astimezone(TZ)` is a call, not a callable: Python evaluates
it once, while the class body executes at module load, so the column default
is the single constant timestamp captured at module-load time. -/
def signupDateDefault (moduleLoadTime : Nat) : Nat := moduleLoadTime

/-- Inserting a `user` row at wall-clock time `insertTime` in a process
whose module was loaded at `moduleLoadTime`: a defaulted column stores the
explicit value when one is given, the (load-time-constant) column default
otherwise.  `insertTime` never enters the defaulted value. -/
def insertUser (moduleLoadTime insertTime : Nat)
    (signup : Option Nat) : UserRow :=
  { signup_date := signup.getD (signupDateDefault moduleLoadTime),
    status := "unverified", coins := 0 }

/-! ### Basic ledger lemmas -/

theorem balanceOf_append (l : List LedgerEntry) (e : LedgerEntry) (u : Nat) :
    balanceOf (l ++ [e]) u
      = balanceOf l u + (if e.userId = u then e.amount else 0) := by
  induction l with
  | nil => simp [balanceOf]
  | cons a t ih => simp [balanceOf, ih, add_assoc]

theorem balanceOf_eq_sum (l : List LedgerEntry) (u : Nat) :
    balanceOf l u
      = ((l.filter (fun e => e.userId = u)).map (fun e => e.amount)).sum := by
  induction l with
  | nil => simp [balanceOf]
  | cons a t ih =>
    by_cases h : a.userId = u <;>
      simp [balanceOf, ih, List.filter_cons, h]

/-! ### Catalog lookup lemmas -/

theorem getRound_setRound_self (st : LotteryState) (rid : Nat) (r r0 : Round)
    (h : getRound st rid = some r0) :
    getRound (setRound st rid r) rid = some r := by
  have hlt : rid < st.rounds.length := by
    by_contra hge
    simp [getRound, List.getElem?_eq_none (Nat.le_of_not_lt hge)] at h
  simp [getRound, setRound, List.getElem?_set, hlt]

theorem getRound_setRound_ne (st : LotteryState) (rid rid2 : Nat) (r : Round)
    (h : rid ≠ rid2) :
    getRound (setRound st rid r) rid2 = getRound st rid2 := by
  simp [getRound, setRound, List.getElem?_set, h]

theorem setRound_ledger (st : LotteryState) (rid : Nat) (r : Round) :
    (setRound st rid r).ledger = st.ledger := rfl

theorem appendEntry_rounds (st : LotteryState) (e : LedgerEntry) :
    (appendEntry st e).1.rounds = st.rounds := rfl

theorem appendEntry_ledger (st : LotteryState) (e : LedgerEntry) :
    (appendEntry st e).1.ledger = st.ledger ++ [e] := rfl

theorem getRound_appendEntry (st : LotteryState) (e : LedgerEntry) (rid : Nat) :
    getRound (appendEntry st e).1 rid = getRound st rid := rfl

theorem getRound_openRound_of_some (st : LotteryState) (c o cl rid : Nat)
    (r : Round) (h : getRound st rid = some r) :
    getRound (openRound st c o cl) rid = some r := by
  unfold openRound
  split
  · exact h
  · have hlt : rid < st.rounds.length := by
      by_contra hge
      simp [getRound, List.getElem?_eq_none (Nat.le_of_not_lt hge)] at h
    simpa [getRound, List.getElem?_append, hlt] using h

theorem openRound_ledger (st : LotteryState) (c o cl : Nat) :
    (openRound st c o cl).ledger = st.ledger := by
  unfold openRound
  split <;> rfl

theorem closeExpired_rounds_eq (st : LotteryState) (now : Nat) :
    (closeExpiredRounds st now).rounds = st.rounds.map (closeUpd now) := rfl

theorem closeExpired_ledger (st : LotteryState) (now : Nat) :
    (closeExpiredRounds st now).ledger = st.ledger := rfl

theorem getRound_closeExpired (st : LotteryState) (now rid : Nat) :
    getRound (closeExpiredRounds st now) rid
      = (getRound st rid).map (closeUpd now) := by
  simp [getRound, closeExpired_rounds_eq]

theorem closeUpd_costPerEntry (now : Nat) (r : Round) :
    (closeUpd now r).costPerEntry = r.costPerEntry := by
  unfold closeUpd
  split <;> rfl

theorem closeUpd_winnerUserId (now : Nat) (r : Round) :
    (closeUpd now r).winnerUserId = r.winnerUserId := by
  unfold closeUpd
  split <;> rfl

/-! ### entriesFor under state changes -/

theorem entriesForUser_append_some (st : LotteryState) (e : LedgerEntry)
    (rid u : Nat) (r : Round) (h : getRound st rid = some r) :
    entriesForUser (appendEntry st e).1 rid u
      = entriesForUser st rid u + entryUnits r.costPerEntry rid u e := by
  unfold entriesForUser
  rw [getRound_appendEntry, h, appendEntry_ledger]
  simp

theorem entriesForUser_append_le (st : LotteryState) (e : LedgerEntry)
    (rid u : Nat) :
    entriesForUser st rid u ≤ entriesForUser (appendEntry st e).1 rid u := by
  cases h : getRound st rid with
  | none =>
    unfold entriesForUser
    rw [getRound_appendEntry, h]
  | some r =>
    rw [entriesForUser_append_some st e rid u r h]
    exact Nat.le_add_right _ _

theorem entriesForUser_setRound (st : LotteryState) (rid rid2 u : Nat)
    (r r0 : Round) (h : getRound st rid = some r0)
    (hc : r.costPerEntry = r0.costPerEntry) :
    entriesForUser (setRound st rid r) rid2 u = entriesForUser st rid2 u := by
  by_cases heq : rid = rid2
  · subst heq
    unfold entriesForUser
    rw [getRound_setRound_self st rid r r0 h, h, setRound_ledger]
    simp [hc]
  · unfold entriesForUser
    rw [getRound_setRound_ne st rid rid2 r heq, setRound_ledger]

theorem entriesForUser_closeExpired (st : LotteryState) (now rid u : Nat) :
    entriesForUser (closeExpiredRounds st now) rid u
      = entriesForUser st rid u := by
  unfold entriesForUser
  rw [getRound_closeExpired, closeExpired_ledger]
  cases h : getRound st rid with
  | none => rfl
  | some r => simp [closeUpd_costPerEntry]

theorem entriesForUser_openRound (st : LotteryState) (c o cl rid u : Nat)
    (r0 : Round) (h : getRound st rid = some r0) :
    entriesForUser (openRound st c o cl) rid u = entriesForUser st rid u := by
  unfold entriesForUser
  rw [getRound_openRound_of_some st c o cl rid r0 h, h, openRound_ledger]

/-! ### Snapshot lemmas -/

theorem roundUsers_setRound (st : LotteryState) (rid rid2 : Nat) (r : Round) :
    roundUsers (setRound st rid r) rid2 = roundUsers st rid2 := rfl

theorem snapshotFor_setRound (st : LotteryState) (rid rid2 : Nat)
    (r r0 : Round) (h : getRound st rid = some r0)
    (hc : r.costPerEntry = r0.costPerEntry) :
    snapshotFor (setRound st rid r) rid2 = snapshotFor st rid2 := by
  unfold snapshotFor
  rw [roundUsers_setRound]
  apply List.map_congr_left
  intro u _
  rw [entriesForUser_setRound st rid rid2 u r r0 h hc]

theorem totalEntries_setRound (st : LotteryState) (rid rid2 : Nat)
    (r r0 : Round) (h : getRound st rid = some r0)
    (hc : r.costPerEntry = r0.costPerEntry) :
    totalEntries (setRound st rid r) rid2 = totalEntries st rid2 := by
  unfold totalEntries
  rw [snapshotFor_setRound st rid rid2 r r0 h hc]

theorem snapshot_mem_count (st : LotteryState) (rid u c : Nat)
    (h : (u, c) ∈ snapshotFor st rid) : c = entriesForUser st rid u := by
  unfold snapshotFor at h
  obtain ⟨v, _, hv⟩ := List.mem_map.mp h
  cases hv
  rfl

theorem selectByIndex_mem (l : List (Nat × Nat)) (k u : Nat)
    (h : selectByIndex l k = some u) : ∃ c, (u, c) ∈ l ∧ 0 < c := by
  induction l generalizing k with
  | nil => simp [selectByIndex] at h
  | cons p t ih =>
    obtain ⟨u0, c0⟩ := p
    unfold selectByIndex at h
    split at h
    · cases h
      exact ⟨c0, List.mem_cons_self _ _, by omega⟩
    · obtain ⟨c, hc, hpos⟩ := ih _ h
      exact ⟨c, List.mem_cons_of_mem _ hc, hpos⟩

theorem pickWinner_mem (s : List (Nat × Nat)) (seed u : Nat)
    (h : pickWinner s seed = some u) : ∃ c, (u, c) ∈ s ∧ 0 < c := by
  unfold pickWinner at h
  simp only [] at h
  split at h
  · cases h
  · exact selectByIndex_mem s _ u h

/-! ### Fiberwise-sum lemmas (the snapshot total vs. the raw ledger total) -/

theorem sum_map_add {α : Type} (l : List α) (f g : α → Nat) :
    (l.map (fun x => f x + g x)).sum = (l.map f).sum + (l.map g).sum := by
  induction l with
  | nil => rfl
  | cons a t ih =>
    simp only [List.map_cons, List.sum_cons, ih]
    omega

theorem sum_ite_eq_of_nodup (us : List Nat) (a x : Nat) (hnd : us.Nodup)
    (ha : a ∈ us) : (us.map (fun u => if a = u then x else 0)).sum = x := by
  induction us with
  | nil => simp at ha
  | cons b t ih =>
    rcases List.mem_cons.mp ha with h | h
    · subst h
      have hnt : a ∉ t := (List.nodup_cons.mp hnd).1
      have hz : (t.map (fun u => if a = u then x else 0)).sum = 0 := by
        apply List.sum_eq_zero
        intro y hy
        obtain ⟨u, hu, rfl⟩ := List.mem_map.mp hy
        have hne : a ≠ u := fun he => hnt (he ▸ hu)
        simp [hne]
      simp [hz]
    · have hab : a ≠ b := fun he => ((List.nodup_cons.mp hnd).1) (he ▸ h)
      simp [hab, ih (List.nodup_cons.mp hnd).2 h]

theorem sum_fiber_split {β : Type} (l : List β) (us : List Nat)
    (key : β → Nat) (w : β → Nat) (hnd : us.Nodup)
    (hcov : ∀ e ∈ l, w e ≠ 0 → key e ∈ us) :
    (us.map (fun u => (l.map (fun e => if key e = u then w e else 0)).sum)).sum
      = (l.map w).sum := by
  induction l with
  | nil => simp
  | cons e t ih =>
    have hcovt : ∀ x ∈ t, w x ≠ 0 → key x ∈ us := fun x hx =>
      hcov x (List.mem_cons_of_mem _ hx)
    have hsplit :
        (us.map (fun u =>
          ((e :: t).map (fun x => if key x = u then w x else 0)).sum)).sum
        = (us.map (fun u => if key e = u then w e else 0)).sum
          + (us.map (fun u =>
              (t.map (fun x => if key x = u then w x else 0)).sum)).sum := by
      rw [← sum_map_add]
      apply congrArg List.sum
      apply List.map_congr_left
      intro u _
      simp
    rw [hsplit, ih hcovt]
    by_cases hwe : w e = 0
    · have hz : (us.map (fun u => if key e = u then w e else 0)).sum = 0 := by
        apply List.sum_eq_zero
        intro y hy
        obtain ⟨u, _, rfl⟩ := List.mem_map.mp hy
        simp [hwe]
      simp [hz, hwe]
    · have hk : key e ∈ us := hcov e (List.mem_cons_self _ _) hwe
      rw [sum_ite_eq_of_nodup us (key e) (w e) hnd hk]
      simp

theorem roundWeight_mem_users (st : LotteryState) (rid cost : Nat)
    (e : LedgerEntry) (he : e ∈ st.ledger) (hw : roundWeight cost rid e ≠ 0) :
    e.userId ∈ roundUsers st rid := by
  by_cases hc : e.reason = Reason.lottery_entry ∧ e.relatedRoundId = some rid
  · unfold roundUsers
    rw [List.mem_dedup]
    exact List.mem_map.mpr
      ⟨e, List.mem_filter.mpr ⟨he, by simpa using hc⟩, rfl⟩
  · exact absurd (by simp [roundWeight, hc]) hw

theorem entriesForUser_eq_indicator (st : LotteryState) (rid u : Nat)
    (r : Round) (h : getRound st rid = some r) :
    entriesForUser st rid u
      = (st.ledger.map (fun e =>
          if e.userId = u then roundWeight r.costPerEntry rid e else 0)).sum := by
  unfold entriesForUser
  rw [h]
  apply congrArg List.sum
  apply List.map_congr_left
  intro e _
  unfold entryUnits roundWeight
  by_cases h1 : e.userId = u <;>
    by_cases h2 : e.reason = Reason.lottery_entry ∧
      e.relatedRoundId = some rid <;>
    simp [h1, h2]

theorem totalEntries_eq_weightSum (st : LotteryState) (rid : Nat) (r : Round)
    (h : getRound st rid = some r) :
    totalEntries st rid
      = (st.ledger.map (roundWeight r.costPerEntry rid)).sum := by
  unfold totalEntries snapshotFor
  rw [List.map_map]
  have hmap :
      (roundUsers st rid).map
        ((fun p : Nat × Nat => p.2) ∘ fun u => (u, entriesForUser st rid u))
      = (roundUsers st rid).map (fun u =>
          (st.ledger.map (fun e =>
            if e.userId = u then roundWeight r.costPerEntry rid e
            else 0)).sum) := by
    apply List.map_congr_left
    intro u _
    exact entriesForUser_eq_indicator st rid u r h
  rw [hmap]
  exact sum_fiber_split st.ledger (roundUsers st rid)
    (fun e => e.userId) (roundWeight r.costPerEntry rid)
    (List.nodup_dedup _)
    (fun e he hw => roundWeight_mem_users st rid r.costPerEntry e he hw)

theorem weightSum_mul_cost (l : List LedgerEntry) (cost rid : Nat)
    (hdvd : ∀ e ∈ l,
      (e.reason = Reason.lottery_entry ∧ e.relatedRoundId = some rid) →
        cost ∣ (-e.amount).toNat) :
    (l.map (roundWeight cost rid)).sum * cost
      = (l.map (fun e =>
          if e.reason = Reason.lottery_entry ∧
              e.relatedRoundId = some rid then
            (-e.amount).toNat
          else 0)).sum := by
  induction l with
  | nil => simp
  | cons e t ih =>
    simp only [List.map_cons, List.sum_cons, Nat.add_mul]
    rw [ih (fun x hx hp => hdvd x (List.mem_cons_of_mem _ hx) hp)]
    congr 1
    by_cases hc : e.reason = Reason.lottery_entry ∧
        e.relatedRoundId = some rid
    · simp only [roundWeight, hc, if_true]
      exact Nat.div_mul_cancel (hdvd e (List.mem_cons_self _ _) hc)
    · simp [roundWeight, hc]

/-! ### Invariant preservation -/

theorem inv_init : Inv initState := by
  constructor
  · intro u
    simp [initState, balanceOf]
  · intro e he
    simp [initState] at he
  · intro rid r h
    simp [initState, getRound] at h
  · intro rid r w h
    simp [initState, getRound] at h

theorem inv_append (st : LotteryState) (e : LedgerEntry) (hI : Inv st)
    (hbal : 0 ≤ balanceOf st.ledger e.userId + e.amount)
    (hshape : e.reason = Reason.lottery_entry →
      ∃ rid r k, e.relatedRoundId = some rid ∧ getRound st rid = some r ∧
        1 ≤ k ∧ e.amount = -((k * r.costPerEntry : Nat) : Int)) :
    Inv (appendEntry st e).1 := by
  constructor
  · intro u
    rw [appendEntry_ledger, balanceOf_append]
    by_cases h : e.userId = u
    · rw [h] at hbal
      simpa [h] using hbal
    · simpa [h] using hI.nonneg u
  · intro x hx hxr
    rw [appendEntry_ledger] at hx
    rcases List.mem_append.mp hx with h | h
    · obtain ⟨rid, r, k, h1, h2, h3, h4⟩ := hI.entryShape x h hxr
      exact ⟨rid, r, k, h1, by rw [getRound_appendEntry]; exact h2, h3, h4⟩
    · have hex : x = e := by simpa using h
      subst hex
      obtain ⟨rid, r, k, h1, h2, h3, h4⟩ := hshape hxr
      exact ⟨rid, r, k, h1, by rw [getRound_appendEntry]; exact h2, h3, h4⟩
  · intro rid r h
    rw [getRound_appendEntry] at h
    exact hI.costPos rid r h
  · intro rid r w h hw
    rw [getRound_appendEntry] at h
    obtain ⟨hs, he⟩ := hI.winnerOk rid r w h hw
    exact ⟨hs, le_trans he (entriesForUser_append_le st e rid w)⟩

theorem inv_debitIfAfforded (st : LotteryState) (u amount : Nat)
    (reason : Reason) (rid : Option Nat) (hI : Inv st)
    (hshape : reason = Reason.lottery_entry →
      ∃ rid0 r k, rid = some rid0 ∧ getRound st rid0 = some r ∧ 1 ≤ k ∧
        amount = k * r.costPerEntry) :
    Inv (debitIfAfforded st u amount reason rid).1 := by
  unfold debitIfAfforded
  split
  · rename_i hle
    refine inv_append st _ hI ?_ ?_
    · show 0 ≤ balanceOf st.ledger u + -(amount : Int)
      omega
    · intro hr
      obtain ⟨rid0, r, k, h1, h2, h3, h4⟩ := hshape hr
      refine ⟨rid0, r, k, h1, h2, h3, ?_⟩
      show -(amount : Int) = -((k * r.costPerEntry : Nat) : Int)
      rw [h4]
  · exact hI

theorem inv_purchase (st : LotteryState) (u rid count now : Nat)
    (hI : Inv st) : Inv (purchaseEntries st u rid count now).1 := by
  unfold purchaseEntries
  split
  · exact hI
  · rename_i hcount
    cases hr : getRound st rid with
    | none => exact hI
    | some r =>
      simp only []
      split
      · split
        · rename_i st2 eid hd
          have hst2 : st2
              = (debitIfAfforded st u (count * r.costPerEntry)
                  Reason.lottery_entry (some rid)).1 := by
            rw [hd]
          rw [hst2]
          apply inv_debitIfAfforded st u (count * r.costPerEntry)
            Reason.lottery_entry (some rid) hI
          intro _
          exact ⟨rid, r, count, rfl, hr, by omega, rfl⟩
        · exact hI
      · exact hI

theorem closeUpd_of_settled (now : Nat) (r : Round)
    (h : r.status = RoundStatus.settled) : closeUpd now r = r := by
  unfold closeUpd
  rw [h]
  simp

theorem inv_closeExpired (st : LotteryState) (now : Nat) (hI : Inv st) :
    Inv (closeExpiredRounds st now) := by
  constructor
  · intro u
    rw [closeExpired_ledger]
    exact hI.nonneg u
  · intro x hx hxr
    rw [closeExpired_ledger] at hx
    obtain ⟨rid, r, k, h1, h2, h3, h4⟩ := hI.entryShape x hx hxr
    refine ⟨rid, closeUpd now r, k, h1, ?_, h3, ?_⟩
    · rw [getRound_closeExpired, h2]
      rfl
    · rw [closeUpd_costPerEntry]
      exact h4
  · intro rid r h
    rw [getRound_closeExpired] at h
    cases h0 : getRound st rid with
    | none => rw [h0] at h; cases h
    | some r0 =>
      rw [h0] at h
      have : closeUpd now r0 = r := Option.some.inj h
      rw [← this, closeUpd_costPerEntry]
      exact hI.costPos rid r0 h0
  · intro rid r w h hw
    rw [getRound_closeExpired] at h
    cases h0 : getRound st rid with
    | none => rw [h0] at h; cases h
    | some r0 =>
      rw [h0] at h
      have hr : closeUpd now r0 = r := Option.some.inj h
      have hw0 : r0.winnerUserId = some w := by
        rw [← closeUpd_winnerUserId now r0, hr]
        exact hw
      obtain ⟨hs, he⟩ := hI.winnerOk rid r0 w h0 hw0
      have hfix : closeUpd now r0 = r0 := closeUpd_of_settled now r0 hs
      refine ⟨?_, ?_⟩
      · rw [← hr, hfix]
        exact hs
      · rw [entriesForUser_closeExpired]
        exact he


theorem getRound_openRound_cases (st : LotteryState) (c o cl rid : Nat)
    (r : Round) (h : getRound (openRound st c o cl) rid = some r) :
    getRound st rid = some r ∨
      (¬(c = 0 ∨ cl ≤ o) ∧
        r = { costPerEntry := c, opensAt := o, closesAt := cl,
              status := RoundStatus.opened, winnerUserId := none }) := by
  unfold openRound at h
  split at h
  · exact Or.inl h
  · rename_i hv
    have h2 : (st.rounds ++
        [{ costPerEntry := c, opensAt := o, closesAt := cl,
           status := RoundStatus.opened, winnerUserId := none }])[rid]?
        = some r := h
    rw [List.getElem?_append] at h2
    by_cases hlt : rid < st.rounds.length
    · rw [if_pos hlt] at h2
      exact Or.inl h2
    · rw [if_neg hlt] at h2
      right
      refine ⟨hv, ?_⟩
      cases he : rid - st.rounds.length with
      | zero =>
        rw [he] at h2
        simp at h2
        exact h2.symm
      | succ n =>
        rw [he] at h2
        simp at h2

theorem inv_openRound (st : LotteryState) (c o cl : Nat) (hI : Inv st) :
    Inv (openRound st c o cl) := by
  constructor
  · intro u
    rw [openRound_ledger]
    exact hI.nonneg u
  · intro x hx hxr
    rw [openRound_ledger] at hx
    obtain ⟨rid, r, k, h1, h2, h3, h4⟩ := hI.entryShape x hx hxr
    exact ⟨rid, r, k, h1, getRound_openRound_of_some st c o cl rid r h2,
      h3, h4⟩
  · intro rid r h
    rcases getRound_openRound_cases st c o cl rid r h with h0 | ⟨hv, hr⟩
    · exact hI.costPos rid r h0
    · subst hr
      simp only []
      omega
  · intro rid r w h hw
    rcases getRound_openRound_cases st c o cl rid r h with h0 | ⟨hv, hr⟩
    · obtain ⟨hs, he⟩ := hI.winnerOk rid r w h0 hw
      refine ⟨hs, ?_⟩
      rw [entriesForUser_openRound st c o cl rid w r h0]
      exact he
    · subst hr
      cases hw

theorem inv_setSettled (st : LotteryState) (rid : Nat) (r : Round)
    (h : getRound st rid = some r) (hI : Inv st) (wOpt : Option Nat)
    (hwin : ∀ w, wOpt = some w → 1 ≤ entriesForUser st rid w) :
    Inv (setRound st rid
      { r with status := RoundStatus.settled, winnerUserId := wOpt }) := by
  constructor
  · intro u
    rw [setRound_ledger]
    exact hI.nonneg u
  · intro x hx hxr
    rw [setRound_ledger] at hx
    obtain ⟨rid0, r0, k, h1, h2, h3, h4⟩ := hI.entryShape x hx hxr
    by_cases he : rid = rid0
    · subst he
      have hr0 : r0 = r := by
        rw [h] at h2
        exact (Option.some.inj h2).symm
      subst hr0
      refine ⟨rid, _, k, h1,
        getRound_setRound_self st rid _ r0 h, h3, ?_⟩
      exact h4
    · exact ⟨rid0, r0, k, h1,
        by rw [getRound_setRound_ne st rid rid0 _ he]; exact h2, h3, h4⟩
  · intro rid2 r3 h3
    by_cases he : rid = rid2
    · subst he
      rw [getRound_setRound_self st rid _ r h] at h3
      have hr3 : r3 = { r with status := RoundStatus.settled,
                               winnerUserId := wOpt } :=
        (Option.some.inj h3).symm
      subst hr3
      exact hI.costPos rid r h
    · rw [getRound_setRound_ne st rid rid2 _ he] at h3
      exact hI.costPos rid2 r3 h3
  · intro rid2 r3 w h3 hw3
    by_cases he : rid = rid2
    · subst he
      rw [getRound_setRound_self st rid _ r h] at h3
      have hr3 : r3 = { r with status := RoundStatus.settled,
                               winnerUserId := wOpt } :=
        (Option.some.inj h3).symm
      subst hr3
      refine ⟨rfl, ?_⟩
      have h1 := hwin w hw3
      rw [entriesForUser_setRound st rid rid w
        { r with status := RoundStatus.settled, winnerUserId := wOpt }
        r h rfl]
      exact h1
    · rw [getRound_setRound_ne st rid rid2 _ he] at h3
      obtain ⟨hs, he2⟩ := hI.winnerOk rid2 r3 w h3 hw3
      refine ⟨hs, ?_⟩
      rw [entriesForUser_setRound st rid rid2 w
        { r with status := RoundStatus.settled, winnerUserId := wOpt }
        r h rfl]
      exact he2

theorem inv_settle (st : LotteryState) (rid w : Nat) (hI : Inv st) :
    Inv (settle st rid w).1 := by
  unfold settle
  cases h : getRound st rid with
  | none => exact hI
  | some r =>
    simp only []
    split
    · split
      · exact hI
      · split
        · exact hI
        · rename_i hW
          exact inv_setSettled st rid r h hI (some w)
            (fun w2 hw2 => by
              cases hw2
              omega)
    · exact hI

theorem inv_draw (st : LotteryState) (rid seed : Nat) (hI : Inv st) :
    Inv (drawEngine st rid seed).1 := by
  unfold drawEngine
  cases h : getRound st rid with
  | none => exact hI
  | some r =>
    simp only []
    split
    · split <;> exact hI
    · split
      · exact inv_setSettled st rid r h hI none (fun w2 hw2 => by cases hw2)
      · split
        · rename_i w hp
          apply inv_setSettled st rid r h hI (some w)
          intro w2 hw2
          cases hw2
          obtain ⟨c, hc, hpos⟩ := pickWinner_mem _ _ _ hp
          have := snapshot_mem_count st rid w c hc
          omega
        · exact hI
    · exact hI

theorem inv_step (st : LotteryState) (op : Op) (hI : Inv st) :
    Inv (step st op) := by
  cases op with
  | credit u amount reason rid =>
    simp only [step]
    split
    · exact hI
    · rename_i hr
      refine inv_append st _ hI ?_ ?_
      · show 0 ≤ balanceOf st.ledger u + (amount : Int)
        have := hI.nonneg u
        omega
      · intro hcontra
        exact absurd hcontra hr
  | debit u amount reason rid =>
    simp only [step]
    split
    · exact hI
    · rename_i hr
      exact inv_debitIfAfforded st u amount reason rid hI
        (fun hcontra => absurd hcontra hr)
  | purchase u rid count now => exact inv_purchase st u rid count now hI
  | openR c o cl => exact inv_openRound st c o cl hI
  | closeExpired now => exact inv_closeExpired st now hI
  | settleOp rid w => exact inv_settle st rid w hI
  | draw rid seed => exact inv_draw st rid seed hI

theorem inv_foldl (ops : List Op) (st : LotteryState) (hI : Inv st) :
    Inv (ops.foldl step st) := by
  induction ops generalizing st with
  | nil => exact hI
  | cons op t ih => exact ih (step st op) (inv_step st op hI)

theorem inv_runOps (ops : List Op) : Inv (runOps ops) :=
  inv_foldl ops initState inv_init

/-! ### Winner persistence (the winner is recorded at most once) -/

theorem debit_rounds (st : LotteryState) (u amount : Nat) (reason : Reason)
    (rid : Option Nat) :
    (debitIfAfforded st u amount reason rid).1.rounds = st.rounds := by
  unfold debitIfAfforded
  split <;> rfl

theorem purchase_rounds (st : LotteryState) (u rid count now : Nat) :
    (purchaseEntries st u rid count now).1.rounds = st.rounds := by
  unfold purchaseEntries
  split
  · rfl
  · split
    · rfl
    · split
      · split
        · rename_i xo r0 hgr hc xp st2 eid hd
          have hst2 : st2
              = (debitIfAfforded st u (count * r0.costPerEntry)
                  Reason.lottery_entry (some rid)).1 := by
            rw [hd]
          rw [hst2, debit_rounds]
        · rfl
      · rfl

theorem getRound_of_rounds_eq (st st2 : LotteryState) (rid : Nat)
    (h : st2.rounds = st.rounds) : getRound st2 rid = getRound st rid := by
  unfold getRound
  rw [h]

theorem winner_persists_step (st : LotteryState) (op : Op) (rid w : Nat)
    (r : Round) (hI : Inv st) (h : getRound st rid = some r)
    (hw : r.winnerUserId = some w) :
    ∃ r2, getRound (step st op) rid = some r2 ∧
      r2.winnerUserId = some w := by
  have hs : r.status = RoundStatus.settled := (hI.winnerOk rid r w h hw).1
  cases op with
  | credit u amount reason rid0 =>
    simp only [step]
    split
    · exact ⟨r, h, hw⟩
    · exact ⟨r, by rw [getRound_appendEntry]; exact h, hw⟩
  | debit u amount reason rid0 =>
    simp only [step]
    split
    · exact ⟨r, h, hw⟩
    · exact ⟨r,
        by rw [getRound_of_rounds_eq st _ rid (debit_rounds st u amount reason rid0)]; exact h,
        hw⟩
  | purchase u rid0 count now =>
    exact ⟨r,
      by
        show getRound (purchaseEntries st u rid0 count now).1 rid = some r
        rw [getRound_of_rounds_eq st _ rid (purchase_rounds st u rid0 count now)]
        exact h,
      hw⟩
  | openR c o cl =>
    exact ⟨r, getRound_openRound_of_some st c o cl rid r h, hw⟩
  | closeExpired now =>
    refine ⟨closeUpd now r, ?_, ?_⟩
    · show getRound (closeExpiredRounds st now) rid = some (closeUpd now r)
      rw [getRound_closeExpired, h]
      rfl
    · rw [closeUpd_winnerUserId]
      exact hw
  | settleOp rid2 w2 =>
    show ∃ r2, getRound (settle st rid2 w2).1 rid = some r2 ∧
      r2.winnerUserId = some w
    unfold settle
    cases h2 : getRound st rid2 with
    | none => exact ⟨r, h, hw⟩
    | some r0 =>
      simp only []
      split
      · rename_i hcpd
        split
        · exact ⟨r, h, hw⟩
        · split
          · exact ⟨r, h, hw⟩
          · by_cases he : rid2 = rid
            · subst he
              rw [h] at h2
              have : r0 = r := (Option.some.inj h2).symm
              rw [this, hs] at hcpd
              cases hcpd
            · exact ⟨r,
                by rw [getRound_setRound_ne st rid2 rid _ he]; exact h, hw⟩
      · exact ⟨r, h, hw⟩
  | draw rid2 seed =>
    show ∃ r2, getRound (drawEngine st rid2 seed).1 rid = some r2 ∧
      r2.winnerUserId = some w
    unfold drawEngine
    cases h2 : getRound st rid2 with
    | none => exact ⟨r, h, hw⟩
    | some r0 =>
      simp only []
      split
      · split <;> exact ⟨r, h, hw⟩
      · rename_i hcpd
        have hne : rid2 ≠ rid := by
          intro he
          subst he
          rw [h] at h2
          have : r0 = r := (Option.some.inj h2).symm
          rw [this, hs] at hcpd
          cases hcpd
        split
        · exact ⟨r,
            by rw [getRound_setRound_ne st rid2 rid _ hne]; exact h, hw⟩
        · split
          · exact ⟨r,
              by rw [getRound_setRound_ne st rid2 rid _ hne]; exact h, hw⟩
          · exact ⟨r, h, hw⟩
      · exact ⟨r, h, hw⟩

theorem winner_persists_foldl (ops : List Op) (st : LotteryState)
    (rid w : Nat) (hI : Inv st)
    (h : ∃ r, getRound st rid = some r ∧ r.winnerUserId = some w) :
    ∃ r2, getRound (ops.foldl step st) rid = some r2 ∧
      r2.winnerUserId = some w := by
  induction ops generalizing st with
  | nil => exact h
  | cons op t ih =>
    obtain ⟨r, hr, hw⟩ := h
    exact ih (step st op) (inv_step st op hI)
      (winner_persists_step st op rid w r hI hr hw)

/-! ### Draw Engine helper lemmas -/

theorem drawEngine_settled (st : LotteryState) (rid seed : Nat) (r : Round)
    (h : getRound st rid = some r) (hs : r.status = RoundStatus.settled) :
    drawEngine st rid seed
      = (st, match r.winnerUserId with
             | some w => DrawResult.winner w
             | none => DrawResult.noEntries) := by
  unfold drawEngine
  rw [h]
  simp only []
  rw [hs]
  simp only []
  cases r.winnerUserId <;> rfl

theorem drawEngine_winner_spec (st : LotteryState) (rid seed : Nat)
    (st2 : LotteryState) (w : Nat)
    (h : drawEngine st rid seed = (st2, DrawResult.winner w)) :
    ∃ r2, getRound st2 rid = some r2 ∧ r2.status = RoundStatus.settled ∧
      r2.winnerUserId = some w := by
  unfold drawEngine at h
  cases hg : getRound st rid with
  | none =>
    rw [hg] at h
    simp only [] at h
    cases h
  | some r =>
    rw [hg] at h
    simp only [] at h
    cases hs : r.status with
    | settled =>
      rw [hs] at h
      simp only [] at h
      cases hw : r.winnerUserId with
      | some w0 =>
        rw [hw] at h
        simp only [] at h
        injection h with h1 h2
        injection h2 with h3
        subst h3
        subst h1
        exact ⟨r, hg, hs, hw⟩
      | none =>
        rw [hw] at h
        simp only [] at h
        injection h with h1 h2
        cases h2
    | closedPendingDraw =>
      rw [hs] at h
      simp only [] at h
      split at h
      · injection h with h1 h2
        cases h2
      · cases hp : pickWinner (snapshotFor st rid) seed with
        | some w0 =>
          rw [hp] at h
          simp only [] at h
          injection h with h1 h2
          injection h2 with h3
          refine ⟨{ r with status := RoundStatus.settled,
                           winnerUserId := some w0 }, ?_, rfl, by rw [h3]⟩
          rw [← h1]
          exact getRound_setRound_self st rid _ r hg
        | none =>
          rw [hp] at h
          simp only [] at h
          injection h with h1 h2
          cases h2
    | opened =>
      rw [hs] at h
      simp only [] at h
      injection h with h1 h2
      cases h2

theorem drawEngine_cpd_result (st : LotteryState) (rid seed : Nat)
    (r : Round) (h : getRound st rid = some r)
    (hs : r.status = RoundStatus.closedPendingDraw) :
    (drawEngine st rid seed).2
      = (if totalEntries st rid = 0 then DrawResult.noEntries
         else
           match pickWinner (snapshotFor st rid) seed with
           | some w => DrawResult.winner w
           | none => DrawResult.notReady) := by
  unfold drawEngine
  rw [h]
  simp only []
  rw [hs]
  simp only []
  split
  · rfl
  · cases hp : pickWinner (snapshotFor st rid) seed <;> rfl

/-! ### Claim theorems -/

/-- C1: every user's balance — the sum of the signed amounts of all that
user's ledger entries — is ≥ 0 after every sequence of operations; a credit
preserves nonnegativity, and `debitIfAfforded` appends a negative entry only
when the amount is covered by the current balance, returning
`InsufficientBalance` with nothing appended otherwise, so no interleaving of
(atomic) debit calls for one user drives the balance negative. -/
theorem C1_balance_nonneg :
    (∀ ops u, 0 ≤ balanceOf (runOps ops).ledger u) ∧
    (∀ st u (amount : Nat) reason rid,
      balanceOf st.ledger u < (amount : Int) →
      debitIfAfforded st u amount reason rid
        = (st, DebitResult.InsufficientBalance)) ∧
    (∀ st u (amount : Nat) reason rid,
      (amount : Int) ≤ balanceOf st.ledger u →
      (debitIfAfforded st u amount reason rid).1.ledger
        = st.ledger ++ [{ userId := u, amount := -(amount : Int),
                          reason := reason, relatedRoundId := rid }] ∧
      (debitIfAfforded st u amount reason rid).2
        = DebitResult.Ok st.ledger.length) := by
  refine ⟨fun ops u => (inv_runOps ops).nonneg u, ?_, ?_⟩
  · intro st u amount reason rid h
    unfold debitIfAfforded
    rw [if_neg (by omega)]
  · intro st u amount reason rid h
    unfold debitIfAfforded
    rw [if_pos h]
    exact ⟨rfl, rfl⟩

/-- Witness for C1 at concrete inputs: the demo scenario leaves user 1 with
a nonnegative balance; an unaffordable debit is refused without appending;
an affordable debit appends exactly the negative entry. -/
theorem C1_balance_nonneg_witness :
    0 ≤ balanceOf (runOps demoOps).ledger 1 ∧
    debitIfAfforded initState 0 5 Reason.adjustment none
      = (initState, DebitResult.InsufficientBalance) ∧
    (debitIfAfforded
        { ledger := [{ userId := 1, amount := 10, reason := Reason.login,
                       relatedRoundId := none }], rounds := [] }
        1 4 Reason.adjustment none).1.ledger
      = [{ userId := 1, amount := 10, reason := Reason.login,
           relatedRoundId := none }]
        ++ [{ userId := 1, amount := -((4 : Nat) : Int),
              reason := Reason.adjustment, relatedRoundId := none }] :=
  ⟨C1_balance_nonneg.1 demoOps 1,
   C1_balance_nonneg.2.1 initState 0 5 Reason.adjustment none (by decide),
   (C1_balance_nonneg.2.2
      { ledger := [{ userId := 1, amount := 10, reason := Reason.login,
                     relatedRoundId := none }], rounds := [] }
      1 4 Reason.adjustment none (by decide)).1⟩

/-- C4: `balanceOf(u)` equals the sum of the `amount` fields of all ledger
entries for `u` at every point in time, and a user with no entries has
balance 0 (absence of entries is not an error — `balanceOf` is total). -/
theorem C4_balanceOf_is_sum :
    (∀ l u, balanceOf l u
      = ((l.filter (fun e => e.userId = u)).map (fun e => e.amount)).sum) ∧
    (∀ l u, l.filter (fun e => e.userId = u) = [] → balanceOf l u = 0) := by
  refine ⟨balanceOf_eq_sum, ?_⟩
  intro l u h
  rw [balanceOf_eq_sum, h]
  rfl

/-- Witness for C4 at concrete inputs: a two-entry ledger sums to 7 for
user 1, and user 2 (no entries) has balance 0, not an error. -/
theorem C4_balanceOf_is_sum_witness :
    balanceOf
        [{ userId := 1, amount := 10, reason := Reason.login,
           relatedRoundId := none },
         { userId := 1, amount := -3, reason := Reason.adjustment,
           relatedRoundId := none }] 1
      = ((([{ userId := 1, amount := 10, reason := Reason.login,
              relatedRoundId := none },
            { userId := 1, amount := -3, reason := Reason.adjustment,
              relatedRoundId := none }] : List LedgerEntry).filter
            (fun e => e.userId = 1)).map (fun e => e.amount)).sum ∧
    balanceOf
        [{ userId := 1, amount := 10, reason := Reason.login,
           relatedRoundId := none }] 2 = 0 :=
  ⟨C4_balanceOf_is_sum.1 _ 1,
   C4_balanceOf_is_sum.2
     [{ userId := 1, amount := 10, reason := Reason.login,
        relatedRoundId := none }] 2 (by decide)⟩

/-- C2: a round's `winnerUserId` is assigned at most once (once recorded it
never changes under further operations), only together with the `settled`
status, and only to a user holding ≥ 1 entry in that round; and
`settle(roundId, winnerUserId)` fails with `InvalidTransition` when the
status is not `closed_pending_draw`, with `NoEntries` when the round has
zero total entries, and with `InvalidWinner` when the chosen user has zero
entries in the round. -/
theorem C2_winner_once :
    (∀ ops rid r w, getRound (runOps ops) rid = some r →
      r.winnerUserId = some w →
      r.status = RoundStatus.settled ∧
        1 ≤ entriesForUser (runOps ops) rid w) ∧
    (∀ ops more rid r w, getRound (runOps ops) rid = some r →
      r.winnerUserId = some w →
      ∃ r2, getRound (runOps (ops ++ more)) rid = some r2 ∧
        r2.winnerUserId = some w) ∧
    (∀ st rid w r, getRound st rid = some r →
      r.status ≠ RoundStatus.closedPendingDraw →
      settle st rid w = (st, SettleResult.InvalidTransition)) ∧
    (∀ st rid w r, getRound st rid = some r →
      r.status = RoundStatus.closedPendingDraw →
      totalEntries st rid = 0 →
      settle st rid w = (st, SettleResult.NoEntries)) ∧
    (∀ st rid w r, getRound st rid = some r →
      r.status = RoundStatus.closedPendingDraw →
      totalEntries st rid ≠ 0 → entriesForUser st rid w = 0 →
      settle st rid w = (st, SettleResult.InvalidWinner)) := by
  refine ⟨?_, ?_, ?_, ?_, ?_⟩
  · intro ops rid r w h hw
    exact (inv_runOps ops).winnerOk rid r w h hw
  · intro ops more rid r w h hw
    have hsplit : runOps (ops ++ more) = more.foldl step (runOps ops) := by
      unfold runOps
      rw [List.foldl_append]
    rw [hsplit]
    exact winner_persists_foldl more (runOps ops) rid w (inv_runOps ops)
      ⟨r, h, hw⟩
  · intro st rid w r h hs
    unfold settle
    rw [h]
    simp only []
    rw [if_neg hs]
  · intro st rid w r h hs hT
    unfold settle
    rw [h]
    simp only []
    rw [if_pos hs, if_pos hT]
  · intro st rid w r h hs hT hW
    unfold settle
    rw [h]
    simp only []
    rw [if_pos hs, if_neg hT, if_pos hW]

/-- Witness for C2 at concrete inputs: in the demo scenario the winner of
round 0 is user 1, recorded with `settled` status and 2 entries, and it
survives a later interfering operation; `settle` rejects an already-settled
round, an empty round, and a non-participant winner. -/
theorem C2_winner_once_witness :
    (({ costPerEntry := 3, opensAt := 0, closesAt := 10,
        status := RoundStatus.settled, winnerUserId := some 1 } : Round).status
        = RoundStatus.settled ∧
      1 ≤ entriesForUser (runOps demoOps) 0 1) ∧
    (∃ r2, getRound (runOps (demoOps ++ [Op.credit 2 5 Reason.saving none])) 0
        = some r2 ∧ r2.winnerUserId = some 1) ∧
    settle (runOps demoOps) 0 1 = (runOps demoOps, SettleResult.InvalidTransition) ∧
    settle
        { ledger := [],
          rounds := [{ costPerEntry := 3, opensAt := 0, closesAt := 10,
                       status := RoundStatus.closedPendingDraw,
                       winnerUserId := none }] } 0 1
      = ({ ledger := [],
           rounds := [{ costPerEntry := 3, opensAt := 0, closesAt := 10,
                        status := RoundStatus.closedPendingDraw,
                        winnerUserId := none }] }, SettleResult.NoEntries) ∧
    settle
        { ledger := [{ userId := 1, amount := -3,
                       reason := Reason.lottery_entry,
                       relatedRoundId := some 0 }],
          rounds := [{ costPerEntry := 3, opensAt := 0, closesAt := 10,
                       status := RoundStatus.closedPendingDraw,
                       winnerUserId := none }] } 0 2
      = ({ ledger := [{ userId := 1, amount := -3,
                        reason := Reason.lottery_entry,
                        relatedRoundId := some 0 }],
           rounds := [{ costPerEntry := 3, opensAt := 0, closesAt := 10,
                        status := RoundStatus.closedPendingDraw,
                        winnerUserId := none }] },
         SettleResult.InvalidWinner) :=
  ⟨C2_winner_once.1 demoOps 0 _ 1 (by decide) (by decide),
   C2_winner_once.2.1 demoOps [Op.credit 2 5 Reason.saving none] 0
     { costPerEntry := 3, opensAt := 0, closesAt := 10,
       status := RoundStatus.settled, winnerUserId := some 1 } 1
     (by decide) (by decide),
   C2_winner_once.2.2.1 (runOps demoOps) 0 1
     { costPerEntry := 3, opensAt := 0, closesAt := 10,
       status := RoundStatus.settled, winnerUserId := some 1 }
     (by decide) (by decide),
   C2_winner_once.2.2.2.1 _ 0 1
     { costPerEntry := 3, opensAt := 0, closesAt := 10,
       status := RoundStatus.closedPendingDraw, winnerUserId := none }
     (by decide) (by decide) (by decide),
   C2_winner_once.2.2.2.2 _ 0 2
     { costPerEntry := 3, opensAt := 0, closesAt := 10,
       status := RoundStatus.closedPendingDraw, winnerUserId := none }
     (by decide) (by decide) (by decide) (by decide)⟩

/-- C3: for every reachable state, a round's total entry count (aggregated
per user from the Ledger Store's entries tagged with the round — there is no
separately maintained counter) times `costPerEntry` equals the total coin
amount debited for the round with reason `lottery_entry`; equivalently the
total count is the debited sum divided by `costPerEntry`. -/
theorem C3_ledger_catalog_agree :
    ∀ ops rid r, getRound (runOps ops) rid = some r →
      totalEntries (runOps ops) rid * r.costPerEntry
          = debitedFor (runOps ops) rid ∧
      totalEntries (runOps ops) rid
          = debitedFor (runOps ops) rid / r.costPerEntry := by
  intro ops rid r h
  have hI := inv_runOps ops
  have hpos := hI.costPos rid r h
  have hdvd : ∀ e ∈ (runOps ops).ledger,
      (e.reason = Reason.lottery_entry ∧ e.relatedRoundId = some rid) →
      r.costPerEntry ∣ (-e.amount).toNat := by
    intro e he hc
    obtain ⟨rid0, r0, k, h1, h2, h3, h4⟩ := hI.entryShape e he hc.1
    rw [h1] at hc
    have hr0 : rid0 = rid := Option.some.inj hc.2
    subst hr0
    rw [h] at h2
    have hr : r0 = r := (Option.some.inj h2).symm
    subst hr
    rw [h4]
    simp only [neg_neg, Int.toNat_natCast]
    exact dvd_mul_left _ k
  have hmain := weightSum_mul_cost (runOps ops).ledger r.costPerEntry rid hdvd
  rw [← totalEntries_eq_weightSum (runOps ops) rid r h] at hmain
  have hfin : totalEntries (runOps ops) rid * r.costPerEntry
      = debitedFor (runOps ops) rid := hmain
  refine ⟨hfin, ?_⟩
  rw [← hfin, Nat.mul_div_cancel _ hpos]

/-- Witness for C3 at concrete inputs: in the demo scenario round 0 has 2
entries at cost 3 and exactly 6 coins were debited for it. -/
theorem C3_ledger_catalog_agree_witness :
    totalEntries (runOps demoOps) 0 * 3 = debitedFor (runOps demoOps) 0 ∧
    totalEntries (runOps demoOps) 0 = debitedFor (runOps demoOps) 0 / 3 :=
  C3_ledger_catalog_agree demoOps 0
    { costPerEntry := 3, opensAt := 0, closesAt := 10,
      status := RoundStatus.settled, winnerUserId := some 1 } (by decide)

/-- C5: `purchaseEntries(userId, roundId, count)` succeeds only when
`count ≥ 1`, the round is `open`, `now < closesAt` and the balance covers
`cost = count * costPerEntry` (appending exactly the one debit, after which
the user's entry count grows by `count`); otherwise it returns exactly one
of `InvalidCount`, `RoundNotOpen`, `InsufficientBalance`, and every failure
leaves the state unchanged — no debit without an entry count. -/
theorem C5_purchase_atomic :
    ∀ st u rid count now,
      (count = 0 →
        purchaseEntries st u rid count now
          = (st, PurchaseResult.InvalidCount)) ∧
      (1 ≤ count → getRound st rid = none →
        purchaseEntries st u rid count now
          = (st, PurchaseResult.RoundNotOpen)) ∧
      (∀ r, 1 ≤ count → getRound st rid = some r →
        ¬(r.status = RoundStatus.opened ∧ now < r.closesAt) →
        purchaseEntries st u rid count now
          = (st, PurchaseResult.RoundNotOpen)) ∧
      (∀ r, 1 ≤ count → getRound st rid = some r →
        r.status = RoundStatus.opened → now < r.closesAt →
        balanceOf st.ledger u < ((count * r.costPerEntry : Nat) : Int) →
        purchaseEntries st u rid count now
          = (st, PurchaseResult.InsufficientBalance)) ∧
      (∀ r, 1 ≤ count → getRound st rid = some r →
        r.status = RoundStatus.opened → now < r.closesAt →
        ((count * r.costPerEntry : Nat) : Int) ≤ balanceOf st.ledger u →
        purchaseEntries st u rid count now
          = ((appendEntry st
              { userId := u,
                amount := -((count * r.costPerEntry : Nat) : Int),
                reason := Reason.lottery_entry,
                relatedRoundId := some rid }).1,
             PurchaseResult.Ok st.ledger.length) ∧
        (0 < r.costPerEntry →
          entriesForUser (purchaseEntries st u rid count now).1 rid u
            = entriesForUser st rid u + count)) ∧
      (∀ st2 res, purchaseEntries st u rid count now = (st2, res) →
        (∀ eid, res ≠ PurchaseResult.Ok eid) → st2 = st) := by
  intro st u rid count now
  refine ⟨?_, ?_, ?_, ?_, ?_, ?_⟩
  · intro hc
    unfold purchaseEntries
    rw [if_pos (by omega)]
  · intro hc hnone
    unfold purchaseEntries
    rw [if_neg (by omega), hnone]
  · intro r hc h hcond
    unfold purchaseEntries
    rw [if_neg (by omega), h]
    simp only []
    rw [if_neg hcond]
  · intro r hc h hst hnow hbal
    unfold purchaseEntries
    rw [if_neg (by omega), h]
    simp only []
    rw [if_pos ⟨hst, hnow⟩]
    unfold debitIfAfforded
    rw [if_neg (by omega)]
  · intro r hc h hst hnow hbal
    have hEq : purchaseEntries st u rid count now
        = ((appendEntry st
            { userId := u,
              amount := -((count * r.costPerEntry : Nat) : Int),
              reason := Reason.lottery_entry,
              relatedRoundId := some rid }).1,
           PurchaseResult.Ok st.ledger.length) := by
      unfold purchaseEntries
      rw [if_neg (by omega), h]
      simp only []
      rw [if_pos ⟨hst, hnow⟩]
      unfold debitIfAfforded
      rw [if_pos hbal]
      rfl
    refine ⟨hEq, ?_⟩
    intro hcost
    rw [hEq]
    rw [entriesForUser_append_some st _ rid u r h]
    congr 1
    unfold entryUnits
    rw [if_pos ⟨rfl, rfl, rfl⟩]
    simp only [neg_neg, Int.toNat_natCast]
    exact Nat.mul_div_cancel _ hcost
  · intro st2 res heq hres
    unfold purchaseEntries at heq
    split at heq
    · injection heq with h1 h2
      exact h1.symm
    · split at heq
      · injection heq with h1 h2
        exact h1.symm
      · split at heq
        · split at heq
          · rename_i eid hd
            injection heq with h1 h2
            exact absurd h2.symm (hres eid)
          · injection heq with h1 h2
            exact h1.symm
        · injection heq with h1 h2
          exact h1.symm

/-- Witness for C5 at concrete inputs: with balance 10 and cost-per-entry 3,
a count-0 purchase is `InvalidCount`; a 4-entry purchase (cost 12) is
`InsufficientBalance` and changes nothing; a 2-entry purchase (cost 6)
appends exactly the one −6 debit and records 2 entries. -/
theorem C5_purchase_atomic_witness :
    purchaseEntries (runOps [Op.openR 3 0 10,
        Op.credit 1 10 Reason.login none]) 1 0 0 5
      = (runOps [Op.openR 3 0 10, Op.credit 1 10 Reason.login none],
         PurchaseResult.InvalidCount) ∧
    purchaseEntries (runOps [Op.openR 3 0 10,
        Op.credit 1 10 Reason.login none]) 1 0 4 5
      = (runOps [Op.openR 3 0 10, Op.credit 1 10 Reason.login none],
         PurchaseResult.InsufficientBalance) ∧
    entriesForUser (purchaseEntries (runOps [Op.openR 3 0 10,
        Op.credit 1 10 Reason.login none]) 1 0 2 5).1 0 1
      = entriesForUser (runOps [Op.openR 3 0 10,
          Op.credit 1 10 Reason.login none]) 0 1 + 2 :=
  ⟨(C5_purchase_atomic (runOps [Op.openR 3 0 10,
      Op.credit 1 10 Reason.login none]) 1 0 0 5).1 rfl,
   (C5_purchase_atomic (runOps [Op.openR 3 0 10,
      Op.credit 1 10 Reason.login none]) 1 0 4 5).2.2.2.1
     { costPerEntry := 3, opensAt := 0, closesAt := 10,
       status := RoundStatus.opened, winnerUserId := none }
     (by decide) (by decide) (by decide) (by decide) (by decide),
   (((C5_purchase_atomic (runOps [Op.openR 3 0 10,
        Op.credit 1 10 Reason.login none]) 1 0 2 5).2.2.2.2.1
      { costPerEntry := 3, opensAt := 0, closesAt := 10,
        status := RoundStatus.opened, winnerUserId := none }
      (by decide) (by decide) (by decide) (by decide) (by decide)).2
     (by decide))⟩

/-- C6: invoking the Draw Engine a second time on an already-settled round
returns the winner recorded by the first invocation, performs no new draw
(the state is returned untouched), and leaves every user's ledger balance
unchanged. -/
theorem C6_draw_idempotent :
    ∀ st rid seed1 seed2 st2 w,
      drawEngine st rid seed1 = (st2, DrawResult.winner w) →
      drawEngine st2 rid seed2 = (st2, DrawResult.winner w) ∧
      (∀ u, balanceOf (drawEngine st2 rid seed2).1.ledger u
          = balanceOf st2.ledger u) := by
  intro st rid seed1 seed2 st2 w h
  obtain ⟨r2, hg2, hs2, hw2⟩ := drawEngine_winner_spec st rid seed1 st2 w h
  have hdraw := drawEngine_settled st2 rid seed2 r2 hg2 hs2
  rw [hw2] at hdraw
  simp only [] at hdraw
  refine ⟨hdraw, ?_⟩
  intro u
  rw [hdraw]

/-- Witness for C6 at concrete inputs: in the demo scenario the first draw
crowns user 1; a re-draw with a different seed returns the same winner and
the same state, and user 1's balance is unchanged. -/
theorem C6_draw_idempotent_witness :
    drawEngine (runOps demoOps) 0 7
        = (runOps demoOps, DrawResult.winner 1) ∧
    balanceOf (drawEngine (runOps demoOps) 0 7).1.ledger 1
        = balanceOf (runOps demoOps).ledger 1 :=
  ⟨(C6_draw_idempotent (runOps [Op.openR 3 0 10,
      Op.credit 1 10 Reason.login none, Op.purchase 1 0 2 5,
      Op.closeExpired 10]) 0 42 7 (runOps demoOps) 1 (by decide)).1,
   (C6_draw_idempotent (runOps [Op.openR 3 0 10,
      Op.credit 1 10 Reason.login none, Op.purchase 1 0 2 5,
      Op.closeExpired 10]) 0 42 7 (runOps demoOps) 1 (by decide)).2 1⟩

/-- C7: a `closed_pending_draw` round whose total entry count is 0 does not
make the draw fail: it settles with `winnerUserId = null`, the `NoEntries`
condition is reported (not fatal), and a later draw invocation leaves the
round untouched (it is never drawn again). -/
theorem C7_zero_entries_settle :
    ∀ st rid seed r,
      getRound st rid = some r →
      r.status = RoundStatus.closedPendingDraw →
      totalEntries st rid = 0 →
      drawEngine st rid seed
        = (setRound st rid { r with status := RoundStatus.settled,
                                    winnerUserId := none },
           DrawResult.noEntries) ∧
      getRound (drawEngine st rid seed).1 rid
        = some { r with status := RoundStatus.settled,
                        winnerUserId := none } ∧
      (∀ seed2, drawEngine (drawEngine st rid seed).1 rid seed2
          = ((drawEngine st rid seed).1, DrawResult.noEntries)) := by
  intro st rid seed r h hs hT
  have hmain : drawEngine st rid seed
      = (setRound st rid { r with status := RoundStatus.settled,
                                  winnerUserId := none },
         DrawResult.noEntries) := by
    unfold drawEngine
    rw [h]
    simp only []
    rw [hs]
    simp only []
    rw [if_pos hT]
  have hg2 : getRound (drawEngine st rid seed).1 rid
      = some { r with status := RoundStatus.settled,
                      winnerUserId := none } := by
    rw [hmain]
    exact getRound_setRound_self st rid _ r h
  refine ⟨hmain, hg2, ?_⟩
  intro seed2
  have h2 := drawEngine_settled (drawEngine st rid seed).1 rid seed2
    { r with status := RoundStatus.settled, winnerUserId := none } hg2 rfl
  simpa using h2

/-- Witness for C7 at concrete inputs: a round that closes with no purchased
entries settles to winner `none` with result `NoEntries`, and a second draw
is a no-op. -/
theorem C7_zero_entries_settle_witness :
    drawEngine (runOps [Op.openR 3 0 10, Op.closeExpired 10]) 0 42
      = (setRound (runOps [Op.openR 3 0 10, Op.closeExpired 10]) 0
          { costPerEntry := 3, opensAt := 0, closesAt := 10,
            status := RoundStatus.settled, winnerUserId := none },
         DrawResult.noEntries) ∧
    (drawEngine
        (drawEngine (runOps [Op.openR 3 0 10, Op.closeExpired 10]) 0 42).1
        0 9)
      = ((drawEngine (runOps [Op.openR 3 0 10, Op.closeExpired 10]) 0 42).1,
         DrawResult.noEntries) :=
  ⟨(C7_zero_entries_settle (runOps [Op.openR 3 0 10, Op.closeExpired 10])
      0 42 { costPerEntry := 3, opensAt := 0, closesAt := 10,
             status := RoundStatus.closedPendingDraw, winnerUserId := none }
      (by decide) (by decide) (by decide)).1,
   (C7_zero_entries_settle (runOps [Op.openR 3 0 10, Op.closeExpired 10])
      0 42 { costPerEntry := 3, opensAt := 0, closesAt := 10,
             status := RoundStatus.closedPendingDraw, winnerUserId := none }
      (by decide) (by decide) (by decide)).2.2 9⟩

/-- C8: the draw is deterministic given a fixed seed — two Draw Engine
executions over the same entry snapshot with the same seed produce the same
result (hence select the same winner), whatever else differs between the
two states. -/
theorem C8_draw_deterministic :
    ∀ st1 st2 rid1 rid2 seed r1 r2,
      getRound st1 rid1 = some r1 →
      r1.status = RoundStatus.closedPendingDraw →
      getRound st2 rid2 = some r2 →
      r2.status = RoundStatus.closedPendingDraw →
      snapshotFor st1 rid1 = snapshotFor st2 rid2 →
      (drawEngine st1 rid1 seed).2 = (drawEngine st2 rid2 seed).2 := by
  intro st1 st2 rid1 rid2 seed r1 r2 h1 hs1 h2 hs2 hsnap
  rw [drawEngine_cpd_result st1 rid1 seed r1 h1 hs1,
      drawEngine_cpd_result st2 rid2 seed r2 h2 hs2]
  unfold totalEntries
  rw [hsnap]

/-- Witness for C8 at concrete inputs: two states whose ledgers differ by an
unrelated credit have the same snapshot for round 0 and the same seed-5 draw
result. -/
theorem C8_draw_deterministic_witness :
    (drawEngine (runOps [Op.openR 3 0 10, Op.credit 1 10 Reason.login none,
        Op.purchase 1 0 2 5, Op.closeExpired 10]) 0 5).2
      = (drawEngine (runOps [Op.openR 3 0 10,
          Op.credit 1 10 Reason.login none, Op.purchase 1 0 2 5,
          Op.credit 2 8 Reason.saving none, Op.closeExpired 10]) 0 5).2 :=
  C8_draw_deterministic _ _ 0 0 5
    { costPerEntry := 3, opensAt := 0, closesAt := 10,
      status := RoundStatus.closedPendingDraw, winnerUserId := none }
    { costPerEntry := 3, opensAt := 0, closesAt := 10,
      status := RoundStatus.closedPendingDraw, winnerUserId := none }
    (by decide) (by decide) (by decide) (by decide) (by decide)

/-- C9: a `user_lottery_log` row created without an explicit `entries` value
stores exactly 1 (the column default); the column is `nullable=False`, so
the stored count is never null — a bare insert records one entry. -/
theorem C9_entries_default_one :
    ∀ i u l, (mkUserLotteryLog i u l none).entries = 1 :=
  fun _ _ _ => rfl

/-- C10: the `signup_date` default is a single constant computed at module
load (`datetime.now().astimezone(TZ)` runs at class-definition time), so any
two users inserted without an explicit `signup_date` in the same process
receive the identical default, whatever their actual insert times. -/
theorem C10_signup_default_constant :
    ∀ load t1 t2,
      (insertUser load t1 none).signup_date
        = (insertUser load t2 none).signup_date ∧
      (insertUser load t1 none).signup_date = signupDateDefault load :=
  fun _ _ _ => ⟨rfl, rfl⟩

end Impulses
